import Mathlib

/-!
Verification of the Survivor Draft scoring core (src/app.py) against its
natural-language specification.

The embedding models the two inbound record streams (castaways and
predictions) as Lean lists, nullable integer columns as `Option Int`, and
each core computation (`calculate_scores`, `compute_score_progression`,
`load_all_predictions`, `get_game_state`) as a function returning
`Except String _`: the `.error` branches correspond to the pandas
exceptions that the Python code raises on degenerate inputs (an empty
table materialises as a DataFrame with no columns, so column access and
merges raise `KeyError`; a pivot with a duplicated (user, castaway) pair
raises `ValueError`; a duplicated index lookup during progression replay
raises `TypeError`).
-/

/-- One row of the `castaways` table (ground truth). `actual_rank = none`
means the castaway has not been eliminated yet. -/
structure Castaway where
  player_name : String
  tribe : String
  actual_rank : Option Int
  is_final_three : Bool
  is_winner : Bool
  deriving DecidableEq, Repr

/-- One row of the `predictions` table: one user's guessed elimination
position for one castaway. -/
structure Prediction where
  username : String
  player_name : String
  predicted_rank : Int
  deriving DecidableEq, Repr

/-- One row of the merged-and-filtered frame `scored` in
`calculate_scores` / `compute_score_progression`: a prediction joined to
an eliminated castaway (non-null `actual_rank`). -/
structure ScoredRow where
  username : String
  predicted_rank : Int
  actual_rank : Int
  is_final_three : Bool
  is_winner : Bool
  deriving DecidableEq, Repr

/-- Per-user accumulator row built inside the `groupby` loop of
`calculate_scores` (before ranking). -/
structure UserTotals where
  player : String
  score : Int
  exact_picks : Nat
  picks_scored : Nat
  deriving DecidableEq, Repr

/-- One row of the final standings DataFrame of `calculate_scores`:
Rank, Player, Score, Exact Picks, Picks Scored. -/
structure ScoreRecord where
  rank : Nat
  player : String
  score : Int
  exact_picks : Nat
  picks_scored : Nat
  deriving DecidableEq, Repr

/-- The merge of predictions with castaways on `player_name` (pandas
`merge(..., how="left")`), restricted to rows whose castaway has a
non-null `actual_rank` (`merged[merged["actual_rank"].notna()]`).
Left-merge order: one block per prediction, matches in castaway order. -/
def predRows (castaways : List Castaway) (p : Prediction) : List ScoredRow :=
  (castaways.filter (fun c => c.player_name == p.player_name)).filterMap (fun c =>
    c.actual_rank.map (fun a =>
      ⟨p.username, p.predicted_rank, a, c.is_final_three, c.is_winner⟩))

/-- All merged-and-filtered rows, in pandas left-merge order. -/
def scoredRows (castaways : List Castaway) (preds : List Prediction) : List ScoredRow :=
  preds.flatMap (predRows castaways)

/-- Code-point lexicographic comparison of character lists: the string
order Python uses when pandas sorts group keys and pivot column labels. -/
def charsLe : List Char → List Char → Bool
  | [], _ => true
  | _ :: _, [] => false
  | a :: as, b :: bs =>
    if a.toNat < b.toNat then true
    else if b.toNat < a.toNat then false
    else charsLe as bs

/-- Python string comparison (code-point lexicographic). -/
def strLe (a b : String) : Bool := charsLe a.data b.data

/-- String order as a relation, for `List.insertionSort`. -/
def strRel (a b : String) : Prop := strLe a b = true

instance : DecidableRel strRel := fun _ _ => instDecidableEqBool _ _

/-- The group keys of `scored.groupby("username")`: distinct usernames in
ascending order (pandas sorts group keys). -/
def sortedUsernames (rows : List ScoredRow) : List String :=
  ((rows.map (fun r => r.username)).dedup).insertionSort strRel

/-- One iteration of the scoring loop of `calculate_scores` (lines
194-216 of src/app.py): the accumulator is (total, exact). -/
def scoreStep (n_players final_3_min : Int) (acc : Int × Nat) (row : ScoredRow) : Int × Nat :=
  let actual := row.actual_rank
  let predicted := row.predicted_rank
  let total := acc.1 + min actual predicted
  let total := if actual == predicted then total + 1 else total
  let exact := if actual == predicted then acc.2 + 1 else acc.2
  let in_final_3_actual := row.is_final_three || decide (final_3_min ≤ actual)
  let in_final_3_predicted := decide (final_3_min ≤ predicted)
  let total := if in_final_3_actual && in_final_3_predicted then total + 3 else total
  let actually_won := row.is_winner || (actual == n_players)
  let predicted_winner := predicted == n_players
  let total := if actually_won && predicted_winner then total + 5 else total
  (total, exact)

/-- The scoring loop of `calculate_scores` folded over one user's group:
returns (total, exact). -/
def scoreGroup (n_players final_3_min : Int) (group : List ScoredRow) : Int × Nat :=
  group.foldl (scoreStep n_players final_3_min) (0, 0)

/-- The `results` list of `calculate_scores` (lines 190-223 of
src/app.py): one `UserTotals` per group key of `scored.groupby("username")`. -/
def scoreResults (n_players final_3_min : Int) (scored : List ScoredRow) : List UserTotals :=
  (sortedUsernames scored).map (fun u =>
    let group := scored.filter (fun row => row.username == u)
    let totals := scoreGroup n_players final_3_min group
    UserTotals.mk u totals.1 totals.2 group.length)

/-- Descending-score order used by `sort_values("Score", ascending=False)`. -/
def scoreDesc (a b : UserTotals) : Prop := b.score ≤ a.score

instance : DecidableRel scoreDesc := fun a b => Int.decLe b.score a.score

instance : IsTotal UserTotals scoreDesc := ⟨fun a b => le_total b.score a.score⟩

instance : IsTrans UserTotals scoreDesc := ⟨fun _ _ _ h1 h2 => le_trans h2 h1⟩

/-- `df.insert(0, "Rank", df.index + 1)` after `reset_index`: attach
rank positions i, i+1, ... to the sorted per-user rows. -/
def attachRanks : Nat → List UserTotals → List ScoreRecord
  | _, [] => []
  | i, ut :: rest =>
    ⟨i, ut.player, ut.score, ut.exact_picks, ut.picks_scored⟩ :: attachRanks (i + 1) rest

/-- `calculate_scores` (src/app.py lines 155-230). With an empty
predictions table the function returns the empty standings frame before
touching the castaways columns; with a non-empty predictions table but an
empty castaways table, `pd.DataFrame([])` has no `player_name` column and
the merge raises `KeyError`. -/
def calculate_scores (castaways : List Castaway) (preds : List Prediction) :
    Except String (List ScoreRecord) :=
  let n_players : Int := (castaways.length : Int)
  let final_3_min : Int := n_players - 2
  if preds.isEmpty then Except.ok []
  else if castaways.isEmpty then Except.error "KeyError: player_name"
  else
    let scored := scoredRows castaways preds
    let results := scoreResults n_players final_3_min scored
    let ranked := results.insertionSort scoreDesc
    Except.ok (attachRanks 1 ranked)

/-- Per-tuple score contribution exactly as the specification words it:
`min(a, p)`, plus 1 if `p = a`, plus 3 if (`is_final_three` OR
`a >= final_3_min`) AND `p >= final_3_min`, plus 5 if (`is_winner` OR
`a = N`) AND `p = N`, the +5 stacking additively on the +3. -/
def specContribution (n_players final_3_min : Int) (row : ScoredRow) : Int :=
  min row.actual_rank row.predicted_rank
    + (if row.predicted_rank = row.actual_rank then (1 : Int) else 0)
    + (if (row.is_final_three = true ∨ final_3_min ≤ row.actual_rank)
          ∧ final_3_min ≤ row.predicted_rank then (3 : Int) else 0)
    + (if (row.is_winner = true ∨ row.actual_rank = n_players)
          ∧ row.predicted_rank = n_players then (5 : Int) else 0)

/-- One row of the long-form DataFrame returned by
`compute_score_progression`: [Elimination, Player, Score]. -/
structure ProgPoint where
  elimination : Int
  player : String
  score : Int
  deriving DecidableEq, Repr

/-- `sorted(scored["actual_rank"].unique())`: the distinct elimination
checkpoints present among scored rows, ascending. -/
def elimOrder (rows : List ScoredRow) : List Int :=
  ((rows.map (fun r => r.actual_rank)).dedup).insertionSort (fun a b => a ≤ b)

/-- True when some user group contains two rows with the same
`actual_rank`.  In that case `grp.set_index("actual_rank")` has a
duplicated index, `grp_indexed.loc[rank]` yields a sub-DataFrame and
`int(row["predicted_rank"])` raises `TypeError` mid-replay. -/
def hasUserRankDup : List ScoredRow → Bool
  | [] => false
  | r :: rest =>
    rest.any (fun s => s.username == r.username && s.actual_rank == r.actual_rank)
      || hasUserRankDup rest

/-- One checkpoint update of `compute_score_progression` (src/app.py
lines 337-347): the per-tuple scoring rule applied to the row found at
this checkpoint, with `actual := rank` taken from the index. -/
def progressStep (n_players final_3_min : Int) (running : Int) (rank : Int)
    (row : ScoredRow) : Int :=
  let actual := rank
  let predicted := row.predicted_rank
  let running1 := running + min actual predicted
  let running2 := if actual == predicted then running1 + 1 else running1
  let in_f3_actual := row.is_final_three || decide (final_3_min ≤ actual)
  let in_f3_predicted := decide (final_3_min ≤ predicted)
  let running3 := if in_f3_actual && in_f3_predicted then running2 + 3 else running2
  if (row.is_winner || (actual == n_players)) && (predicted == n_players)
  then running3 + 5 else running3

/-- The inner checkpoint loop of `compute_score_progression` (src/app.py
lines 333-348) for one user: walk the ascending checkpoint list, apply
the per-tuple scoring rule when the user has a prediction for the
castaway eliminated at that checkpoint, and emit the running total at
every checkpoint. -/
def userSeries (n_players final_3_min : Int) (u : String) (group : List ScoredRow)
    (running : Int) : List Int → List ProgPoint
  | [] => []
  | rank :: rest =>
    match group.find? (fun row => row.actual_rank == rank) with
    | some row =>
      let running4 := progressStep n_players final_3_min running rank row
      ⟨rank, u, running4⟩ :: userSeries n_players final_3_min u group running4 rest
    | none => ⟨rank, u, running⟩ :: userSeries n_players final_3_min u group running rest

/-- `compute_score_progression` (src/app.py lines 303-350).  An empty
castaways table has no `actual_rank` column, so line 314 raises
`KeyError` before predictions are even fetched. -/
def compute_score_progression (castaways : List Castaway) (preds : List Prediction) :
    Except String (List ProgPoint) :=
  let n_players : Int := (castaways.length : Int)
  let final_3_min : Int := n_players - 2
  if castaways.isEmpty then Except.error "KeyError: actual_rank"
  else if (castaways.filter (fun c => c.actual_rank.isSome)).isEmpty then Except.ok []
  else if preds.isEmpty then Except.ok []
  else
    let scored := scoredRows castaways preds
    if hasUserRankDup scored then Except.error "TypeError: cannot convert the series"
    else
      let ranks := elimOrder scored
      Except.ok ((sortedUsernames scored).flatMap (fun u =>
        userSeries n_players final_3_min u
          (scored.filter (fun row => row.username == u)) 0 ranks))

/-- The dict returned by `get_game_state`.  The early "season not
started" return produces a dict without the winner/final_three/score
keys; consumers read them with `dict.get`, so they behave as
none / empty there, which is how this structure models them. -/
structure GameState where
  n_eliminated : Nat
  n_remaining : Nat
  most_recent : Option Castaway
  exact : List String
  too_high : List String
  too_low : List String
  final_three : List String
  winner : Option String
  scores : List ScoreRecord
  deriving DecidableEq, Repr

/-- Ascending `actual_rank` order on castaway rows, used by
`eliminated.sort_values("actual_rank")`. -/
def rankAsc (a b : Castaway) : Prop := a.actual_rank.getD 0 ≤ b.actual_rank.getD 0

instance : DecidableRel rankAsc := fun a b => Int.decLe _ _

instance : IsTotal Castaway rankAsc := ⟨fun a b => le_total _ _⟩

instance : IsTrans Castaway rankAsc := ⟨fun _ _ _ h1 h2 => le_trans h1 h2⟩

/-- `get_game_state` (src/app.py lines 233-300).  With an empty
castaways table, `cast_df["actual_rank"]` raises `KeyError` (the empty
DataFrame has no columns). -/
def get_game_state (castaways : List Castaway) (preds : List Prediction) :
    Except String GameState :=
  if castaways.isEmpty then Except.error "KeyError: actual_rank"
  else
    let eliminated := castaways.filter (fun c => c.actual_rank.isSome)
    if eliminated.isEmpty then
      Except.ok ⟨0, castaways.length, none, [], [], [], [], none, []⟩
    else
      match (eliminated.insertionSort rankAsc).getLast? with
      | none => Except.error "unreachable: eliminated is nonempty"
      | some most_recent =>
        let actual_r : Int := most_recent.actual_rank.getD 0
        let mrPreds := preds.filter (fun p => p.player_name == most_recent.player_name)
        let exact := (mrPreds.filter (fun p => p.predicted_rank == actual_r)).map
          (fun p => p.username)
        let too_high := (mrPreds.filter (fun p => decide (actual_r < p.predicted_rank))).map
          (fun p => p.username)
        let too_low := (mrPreds.filter (fun p => decide (p.predicted_rank < actual_r))).map
          (fun p => p.username)
        let final_three := (castaways.filter (fun c => c.is_final_three)).map
          (fun c => c.player_name)
        let winner_rows := (castaways.filter (fun c => c.is_winner)).map
          (fun c => c.player_name)
        let winner_rows :=
          if winner_rows.isEmpty && !eliminated.isEmpty then
            (eliminated.filter (fun c =>
              c.actual_rank == some (castaways.length : Int))).map (fun c => c.player_name)
          else winner_rows
        let winner := winner_rows.head?
        match calculate_scores castaways preds with
        | Except.error e => Except.error e
        | Except.ok scores =>
          Except.ok ⟨eliminated.length, castaways.length - eliminated.length,
            some most_recent, exact, too_high, too_low, final_three, winner, scores⟩

/-- One row of the pivot table built by `load_all_predictions`: a
castaway with the per-user predicted ranks (aligned with the
`user_columns` list of the surrounding `Standings`). -/
structure StandingsRow where
  player_name : String
  tribe : String
  actual_rank : Option Int
  user_ranks : List (Option Int)
  deriving DecidableEq, Repr

/-- The DataFrame returned by `load_all_predictions`: user column labels
plus one row per castaway. -/
structure Standings where
  user_columns : List String
  rows : List StandingsRow
  deriving DecidableEq, Repr

/-- The column labels of the standings output, in output order:
tribe, actual_rank, then the user columns. -/
def standingsColumns (s : Standings) : List String :=
  "tribe" :: "actual_rank" :: s.user_columns

/-- True when two prediction rows share (username, player_name); pandas
`pivot` raises `ValueError` on such duplicates. -/
def hasDupPredPair : List Prediction → Bool
  | [] => false
  | p :: rest =>
    rest.any (fun q => q.username == p.username && q.player_name == p.player_name)
      || hasDupPredPair rest

/-- The ingredients of `result[user_cols].mean(axis=1)` for one row:
sum and count of the present predicted ranks, none when every user
column is null. -/
def rowMeanParts (row : StandingsRow) : Option (Int × Nat) :=
  let vals := row.user_ranks.filterMap id
  if vals.isEmpty then none else some (vals.sum, vals.length)

/-- The value of the `avg_rank` column for one row: the exact mean of
the present predicted ranks (none when the row has no prediction). -/
def rowAvg (row : StandingsRow) : Option ℚ :=
  (rowMeanParts row).map (fun p => (p.1 : ℚ) / (p.2 : ℚ))

/-- `sort_values("avg_rank")` comparison: ascending by mean, with null
means placed last (`na_position` defaults to "last").  Two defined means
sum1/cnt1 and sum2/cnt2 are compared by cross multiplication, which for
positive counts is the same order as the rational means. -/
def partsLe : Option (Int × Nat) → Option (Int × Nat) → Bool
  | _, none => true
  | none, some _ => false
  | some p, some q => decide (p.1 * (q.2 : Int) ≤ q.1 * (p.2 : Int))

/-- Row order of the standings output. -/
def avgRel (r s : StandingsRow) : Prop := partsLe (rowMeanParts r) (rowMeanParts s) = true

instance : DecidableRel avgRel := fun _ _ => instDecidableEqBool _ _

theorem rowMeanParts_count_pos {row : StandingsRow} {p : Int × Nat}
    (h : rowMeanParts row = some p) : 0 < p.2 := by
  rw [rowMeanParts] at h
  cases he : (row.user_ranks.filterMap id).isEmpty with
  | true =>
    simp only [he, if_true] at h
    exact Option.noConfusion h
  | false =>
    simp only [he, Bool.false_eq_true, if_false, Option.some.injEq] at h
    subst h
    exact List.length_pos.mpr (List.isEmpty_eq_false.mp he)

instance : IsTotal StandingsRow avgRel :=
  ⟨fun r s => by
    unfold avgRel
    cases hr : rowMeanParts r with
    | none =>
      cases hs : rowMeanParts s with
      | none => simp [partsLe]
      | some q => simp [partsLe]
    | some p =>
      cases hs : rowMeanParts s with
      | none => simp [partsLe]
      | some q =>
        simp only [partsLe, decide_eq_true_eq]
        exact le_total _ _⟩

instance : IsTrans StandingsRow avgRel :=
  ⟨fun r s t h1 h2 => by
    unfold avgRel at h1 h2 ⊢
    cases hr : rowMeanParts r with
    | none =>
      cases ht : rowMeanParts t with
      | none => simp [partsLe]
      | some pt =>
        rw [hr] at h1
        cases hs : rowMeanParts s with
        | none =>
          rw [hs, ht] at h2
          simp [partsLe] at h2
        | some ps =>
          rw [hs] at h1
          simp [partsLe] at h1
    | some pr =>
      cases ht : rowMeanParts t with
      | none => simp [partsLe]
      | some pt =>
        rw [hr] at h1
        rw [ht] at h2
        cases hs : rowMeanParts s with
        | none =>
          rw [hs] at h2
          simp [partsLe] at h2
        | some ps =>
          rw [hs] at h1 h2
          simp only [partsLe, decide_eq_true_eq] at h1 h2 ⊢
          have hcs : (0 : Int) < (ps.2 : Int) := by
            exact_mod_cast rowMeanParts_count_pos hs
          have hcr : (0 : Int) ≤ (pr.2 : Int) := Int.natCast_nonneg _
          have hct : (0 : Int) ≤ (pt.2 : Int) := Int.natCast_nonneg _
          nlinarith [mul_le_mul_of_nonneg_right h1 hct,
            mul_le_mul_of_nonneg_right h2 hcr]⟩

/-- `load_all_predictions` (src/app.py lines 127-152).  Error branches:
empty castaways table means `set_index("player_name")` raises `KeyError`;
duplicate (username, player_name) pairs make `pivot` raise `ValueError`;
a username equal to an existing column label makes `join` raise
`ValueError` (overlap) and a username equal to `avg_rank` is overwritten
by the mean column and then dropped, so `result[col_order]` raises
`KeyError`. -/
def load_all_predictions (castaways : List Castaway) (preds : List Prediction) :
    Except String Standings :=
  if castaways.isEmpty then Except.error "KeyError: player_name"
  else if preds.isEmpty then
    Except.ok ⟨[], castaways.map (fun c => ⟨c.player_name, c.tribe, c.actual_rank, []⟩)⟩
  else if hasDupPredPair preds then
    Except.error "ValueError: Index contains duplicate entries, cannot reshape"
  else if preds.any (fun p => p.username == "tribe" || p.username == "actual_rank") then
    Except.error "ValueError: columns overlap but no suffix specified"
  else if preds.any (fun p => p.username == "avg_rank") then
    Except.error "KeyError: avg_rank"
  else
    let users := ((preds.map (fun p => p.username)).dedup).insertionSort strRel
    let rows := castaways.map (fun c =>
      StandingsRow.mk c.player_name c.tribe c.actual_rank
        (users.map (fun u =>
          (preds.find? (fun p => p.username == u && p.player_name == c.player_name)).map
            (fun p => p.predicted_rank))))
    Except.ok ⟨users, rows.insertionSort avgRel⟩

/-! ### Concrete inputs used by individual claims -/

/-- Scenario A castaways: three castaways with actual ranks 1, 2, 3 and
no flags set. -/
def scenarioACast : List Castaway :=
  [⟨"A", "t", some 1, false, false⟩,
   ⟨"B", "t", some 2, false, false⟩,
   ⟨"C", "t", some 3, false, false⟩]

/-- Scenario A predictions: one user predicting each rank exactly. -/
def scenarioAPreds : List Prediction :=
  [⟨"u", "A", 1⟩, ⟨"u", "B", 2⟩, ⟨"u", "C", 3⟩]

/-- Witness input for C5/C7/C10: three castaways (two not yet
eliminated), two users, one castaway without any prediction. -/
def c7cast : List Castaway :=
  [⟨"A", "t", some 1, false, false⟩, ⟨"B", "t", none, false, false⟩,
   ⟨"C", "t", none, false, false⟩]

/-- Witness predictions for C5/C7/C10. -/
def c7preds : List Prediction :=
  [⟨"u", "A", 3⟩, ⟨"u", "B", 1⟩, ⟨"v", "B", 2⟩]

/-! ### Claim theorems -/

/-- Claim C6 counterexample: on exactly 3 castaways with actual ranks
1, 2, 3 (flags unset) and one user predicting each rank exactly, the
scoring function returns a total of 23, not the 20 the claim states
(base 1+2+3 = 6, exact +3, final-three +3 for each of the three tuples
since final_3_min = 1, winner +5). -/
theorem claim_C6_counterexample :
    calculate_scores scenarioACast scenarioAPreds =
      Except.ok [{ rank := 1, player := "u", score := 23, exact_picks := 3,
                   picks_scored := 3 }]
      ∧ (23 : Int) ≠ 20 :=
  ⟨rfl, by decide⟩

/-- Claim C6 (amended): for exactly 3 castaways with actual ranks
1, 2, 3 (flags unset) and one user predicting each castaway's rank
exactly, the scoring function returns for that user a total score of 23
(base 1+2+3 = 6, exact bonuses +3, final-three bonuses +9 since
final_3_min = 1 makes all three tuples qualify, winner bonus +5) with an
exact-pick count of 3. -/
theorem claim_C6_amended :
    calculate_scores scenarioACast scenarioAPreds =
      Except.ok [{ rank := 1, player := "u", score := 23, exact_picks := 3,
                   picks_scored := 3 }] :=
  rfl

/-- Claim C3 (code bug evidence): with an empty castaways record set the
code does NOT degrade to empty outputs; `pd.DataFrame([])` has no
columns, so the scoring function's merge raises `KeyError` whenever the
prediction set is non-empty, and the standings projector and the
game-state snapshot raise `KeyError` even with an empty prediction set
(so `n_remaining = 0` is never reported). -/
theorem claim_C3_code_bug :
    calculate_scores [] [⟨"alice", "Bob", 1⟩] = Except.error "KeyError: player_name"
      ∧ load_all_predictions [] [] = Except.error "KeyError: player_name"
      ∧ get_game_state [] [] = Except.error "KeyError: actual_rank" :=
  ⟨rfl, rfl, rfl⟩

/-! ### Shared helper lemmas -/

theorem head?_filter_map {α β : Type _} (p : α → Bool) (f : α → β) :
    ∀ l : List α, ((l.filter p).map f).head? = (l.find? p).map f
  | [] => rfl
  | x :: l => by
    by_cases h : p x
    · simp [List.filter_cons, h, List.find?_cons, Option.map_some]
    · simp only [List.filter_cons, h, Bool.false_eq_true, if_false, List.find?_cons,
        head?_filter_map p f l]

theorem scoreStep_eq (n f3 : Int) (acc : Int × Nat) (row : ScoredRow) :
    scoreStep n f3 acc row =
      (acc.1 + specContribution n f3 row,
       acc.2 + (if row.predicted_rank = row.actual_rank then 1 else 0)) := by
  simp only [scoreStep, specContribution, beq_iff_eq, Bool.and_eq_true, Bool.or_eq_true,
    decide_eq_true_eq, Prod.mk.injEq]
  constructor <;> split_ifs <;> omega

theorem scoreGroup_foldl (n f3 : Int) :
    ∀ (g : List ScoredRow) (acc : Int × Nat),
      g.foldl (scoreStep n f3) acc =
        (acc.1 + (g.map (specContribution n f3)).sum,
         acc.2 + g.countP (fun row => row.predicted_rank == row.actual_rank))
  | [], acc => by simp
  | row :: g, acc => by
    rw [List.foldl_cons, scoreStep_eq, scoreGroup_foldl n f3 g]
    simp only [List.map_cons, List.sum_cons, List.countP_cons, beq_iff_eq,
      decide_eq_true_eq, Prod.mk.injEq]
    constructor
    · ring
    · split_ifs <;> omega

/-- The (total, exact) pair of one user group equals the sum of the
specification's per-tuple contributions plus the exact-pick count. -/
theorem scoreGroup_eq (n f3 : Int) (g : List ScoredRow) :
    scoreGroup n f3 g =
      ((g.map (specContribution n f3)).sum,
       g.countP (fun row => row.predicted_rank == row.actual_rank)) := by
  rw [scoreGroup, scoreGroup_foldl]
  simp

theorem mem_attachRanks {i : Nat} {l : List UserTotals} {rec : ScoreRecord}
    (h : rec ∈ attachRanks i l) :
    ∃ ut ∈ l, rec.player = ut.player ∧ rec.score = ut.score
      ∧ rec.exact_picks = ut.exact_picks ∧ rec.picks_scored = ut.picks_scored := by
  induction l generalizing i with
  | nil => exact absurd h (List.not_mem_nil rec)
  | cons ut rest ih =>
    rw [attachRanks, List.mem_cons] at h
    rcases h with rfl | h
    · exact ⟨ut, List.mem_cons_self ut rest, rfl, rfl, rfl, rfl⟩
    · obtain ⟨ut', hmem, hfields⟩ := ih h
      exact ⟨ut', List.mem_cons_of_mem ut hmem, hfields⟩

theorem attachRanks_exists {l : List UserTotals} {ut : UserTotals} (i : Nat)
    (h : ut ∈ l) :
    ∃ rec ∈ attachRanks i l, rec.player = ut.player ∧ rec.score = ut.score
      ∧ rec.exact_picks = ut.exact_picks ∧ rec.picks_scored = ut.picks_scored := by
  induction l generalizing i with
  | nil => exact absurd h (List.not_mem_nil ut)
  | cons ut' rest ih =>
    rw [List.mem_cons] at h
    rcases h with rfl | h
    · exact ⟨⟨i, ut.player, ut.score, ut.exact_picks, ut.picks_scored⟩,
        List.mem_cons_self _ _, rfl, rfl, rfl, rfl⟩
    · obtain ⟨rec, hmem, hfields⟩ := ih (i + 1) h
      exact ⟨rec, List.mem_cons_of_mem _ hmem, hfields⟩

theorem attachRanks_length : ∀ (i : Nat) (l : List UserTotals),
    (attachRanks i l).length = l.length
  | _, [] => rfl
  | i, _ :: rest => by rw [attachRanks, List.length_cons, List.length_cons,
      attachRanks_length (i + 1) rest]

theorem attachRanks_map_rank : ∀ (i : Nat) (l : List UserTotals),
    (attachRanks i l).map (fun rec => rec.rank) = List.range' i l.length
  | _, [] => rfl
  | i, ut :: rest => by
    rw [attachRanks, List.map_cons, List.length_cons, List.range'_succ,
      attachRanks_map_rank (i + 1) rest]

theorem attachRanks_pairwise {l : List UserTotals} {i : Nat}
    (h : l.Pairwise scoreDesc) :
    (attachRanks i l).Pairwise (fun a b : ScoreRecord => b.score ≤ a.score) := by
  induction l generalizing i with
  | nil => exact List.Pairwise.nil
  | cons ut rest ih =>
    rw [attachRanks]
    rcases List.pairwise_cons.mp h with ⟨hhead, htail⟩
    refine List.Pairwise.cons ?_ (ih htail)
    intro rec hrec
    obtain ⟨ut', hmem, _, hs, _, _⟩ := mem_attachRanks hrec
    rw [hs]
    exact hhead ut' hmem

/-- Normal-return shapes of `calculate_scores`. -/
theorem calculate_scores_ok_cases {castaways : List Castaway} {preds : List Prediction}
    {l : List ScoreRecord} (h : calculate_scores castaways preds = Except.ok l) :
    (preds = [] ∧ l = [])
      ∨ (preds ≠ [] ∧ castaways ≠ []
          ∧ l = attachRanks 1 ((scoreResults (castaways.length : Int)
              ((castaways.length : Int) - 2) (scoredRows castaways preds)).insertionSort
                scoreDesc)) := by
  rw [calculate_scores] at h
  cases hpe : preds.isEmpty with
  | true =>
    rw [hpe] at h
    simp only [if_true, Except.ok.injEq] at h
    exact Or.inl ⟨List.isEmpty_iff.mp hpe, h.symm⟩
  | false =>
    rw [hpe] at h
    cases hce : castaways.isEmpty with
    | true => rw [hce] at h; exact absurd h (by simp)
    | false =>
      rw [hce] at h
      simp only [Bool.false_eq_true, if_false, Except.ok.injEq] at h
      exact Or.inr ⟨List.isEmpty_eq_false.mp hpe, List.isEmpty_eq_false.mp hce, h.symm⟩

theorem mem_scoredRows {castaways : List Castaway} {preds : List Prediction} {r : ScoredRow}
    (h : r ∈ scoredRows castaways preds) :
    (∃ p ∈ preds, r.username = p.username ∧ r.predicted_rank = p.predicted_rank)
      ∧ ∃ c ∈ castaways, c.actual_rank = some r.actual_rank := by
  rw [scoredRows, List.mem_flatMap] at h
  obtain ⟨p, hp, hr⟩ := h
  rw [predRows, List.mem_filterMap] at hr
  obtain ⟨c, hc, hmap⟩ := hr
  rw [List.mem_filter] at hc
  rw [Option.map_eq_some'] at hmap
  obtain ⟨a, ha, hmk⟩ := hmap
  subst hmk
  exact ⟨⟨p, hp, rfl, rfl⟩, ⟨c, hc.1, ha⟩⟩

theorem mem_elimOrder {rows : List ScoredRow} {a : Int} (h : a ∈ elimOrder rows) :
    ∃ r ∈ rows, r.actual_rank = a := by
  rw [elimOrder, List.mem_insertionSort, List.mem_dedup, List.mem_map] at h
  obtain ⟨r, hr, rfl⟩ := h
  exact ⟨r, hr, rfl⟩

theorem progressStep_mono (n f3 running rank : Int) (row : ScoredRow)
    (h0r : 0 ≤ rank) (h0p : 0 ≤ row.predicted_rank) :
    running ≤ progressStep n f3 running rank row := by
  have hmin : 0 ≤ min rank row.predicted_rank := le_min h0r h0p
  simp only [progressStep]
  split_ifs <;> omega

theorem userSeries_player (n f3 : Int) (u : String) (group : List ScoredRow) :
    ∀ (ranks : List Int) (running : Int) (q : ProgPoint),
      q ∈ userSeries n f3 u group running ranks → q.player = u
  | [], _, q, h => absurd h (List.not_mem_nil q)
  | rank :: rest, running, q, h => by
    simp only [userSeries] at h
    cases hf : group.find? (fun row => row.actual_rank == rank) with
    | some row =>
      rw [hf] at h
      simp only [List.mem_cons] at h
      rcases h with rfl | h
      · rfl
      · exact userSeries_player n f3 u group rest _ q h
    | none =>
      rw [hf] at h
      simp only [List.mem_cons] at h
      rcases h with rfl | h
      · rfl
      · exact userSeries_player n f3 u group rest _ q h

theorem userSeries_chain (n f3 : Int) (u : String) (group : List ScoredRow)
    (hg : ∀ r ∈ group, 0 ≤ r.predicted_rank) :
    ∀ (ranks : List Int) (running : Int), (∀ a ∈ ranks, 0 ≤ a) →
      List.Chain' (fun a b => a ≤ b)
        (running :: (userSeries n f3 u group running ranks).map (fun q => q.score))
  | [], running, _ => by simp [userSeries]
  | rank :: rest, running, hr => by
    simp only [userSeries]
    cases hf : group.find? (fun row => row.actual_rank == rank) with
    | some row =>
      simp only [List.map_cons]
      rw [List.chain'_cons]
      exact ⟨progressStep_mono n f3 running rank row (hr rank (List.mem_cons_self _ _))
          (hg row (List.mem_of_find?_eq_some hf)),
        userSeries_chain n f3 u group hg rest _
          (fun a ha => hr a (List.mem_cons_of_mem _ ha))⟩
    | none =>
      simp only [List.map_cons]
      rw [List.chain'_cons]
      exact ⟨le_refl running,
        userSeries_chain n f3 u group hg rest running
          (fun a ha => hr a (List.mem_cons_of_mem _ ha))⟩

theorem filter_flatMap_player (u : String) :
    ∀ (users : List String) (f : String → List ProgPoint),
      (∀ u' ∈ users, ∀ q ∈ f u', q.player = u') → users.Nodup →
      (users.flatMap f).filter (fun q => q.player == u)
        = if u ∈ users then f u else []
  | [], f, _, _ => by simp
  | v :: rest, f, hp, hnd => by
    rw [List.flatMap_cons, List.filter_append]
    have hnd' := List.nodup_cons.mp hnd
    have ihres := filter_flatMap_player u rest f
      (fun u' hu' => hp u' (List.mem_cons_of_mem _ hu')) hnd'.2
    by_cases hv : v = u
    · subst hv
      have h1 : (f v).filter (fun q => q.player == v) = f v :=
        List.filter_eq_self.mpr (fun q hq => by
          rw [hp v (List.mem_cons_self _ _) q hq]
          exact beq_self_eq_true v)
      rw [h1, ihres, if_neg hnd'.1, List.append_nil, if_pos (List.mem_cons_self _ _)]
    · have h1 : (f v).filter (fun q => q.player == u) = [] := by
        rw [List.filter_eq_nil_iff]
        intro q hq
        rw [hp v (List.mem_cons_self _ _) q hq]
        simp only [beq_iff_eq]
        exact fun h => hv h
      rw [h1, List.nil_append, ihres]
      by_cases hu : u ∈ rest
      · rw [if_pos hu, if_pos (List.mem_cons_of_mem _ hu)]
      · rw [if_neg hu, if_neg (by
          rw [List.mem_cons]
          rintro (rfl | h)
          · exact hv rfl
          · exact hu h)]

/-- Normal-return shapes of `compute_score_progression`. -/
theorem compute_score_progression_ok_cases {castaways : List Castaway}
    {preds : List Prediction} {pts : List ProgPoint}
    (h : compute_score_progression castaways preds = Except.ok pts) :
    pts = []
      ∨ (hasUserRankDup (scoredRows castaways preds) = false
          ∧ pts = (sortedUsernames (scoredRows castaways preds)).flatMap (fun u =>
              userSeries (castaways.length : Int) ((castaways.length : Int) - 2) u
                ((scoredRows castaways preds).filter (fun row => row.username == u)) 0
                (elimOrder (scoredRows castaways preds)))) := by
  rw [compute_score_progression] at h
  cases hce : castaways.isEmpty with
  | true => rw [hce] at h; exact absurd h (by simp)
  | false =>
    rw [hce] at h
    cases hel : (castaways.filter (fun c => c.actual_rank.isSome)).isEmpty with
    | true =>
      rw [hel] at h
      simp only [Bool.false_eq_true, if_false, eq_self_iff_true, if_true,
        Except.ok.injEq] at h
      exact Or.inl h.symm
    | false =>
      rw [hel] at h
      cases hpe : preds.isEmpty with
      | true =>
        rw [hpe] at h
        simp only [Bool.false_eq_true, if_false, eq_self_iff_true, if_true,
          Except.ok.injEq] at h
        exact Or.inl h.symm
      | false =>
        rw [hpe] at h
        simp only [Bool.false_eq_true, if_false] at h
        cases hdup : hasUserRankDup (scoredRows castaways preds) with
        | true =>
          rw [hdup] at h
          exact absurd h (by simp)
        | false =>
          rw [hdup] at h
          simp only [Bool.false_eq_true, if_false, Except.ok.injEq] at h
          exact Or.inr ⟨rfl, h.symm⟩

/-- The per-checkpoint increment of the progression replay: the
contribution of the row found at this checkpoint, 0 when the user has no
prediction there. -/
def seriesDelta (n f3 : Int) (group : List ScoredRow) (rank : Int) : Int :=
  match group.find? (fun row => row.actual_rank == rank) with
  | some row => specContribution n f3 row
  | none => 0

theorem progressStep_eq (n f3 running rank : Int) (row : ScoredRow)
    (hrow : row.actual_rank = rank) :
    progressStep n f3 running rank row = running + specContribution n f3 row := by
  subst hrow
  simp only [progressStep, specContribution, beq_iff_eq, Bool.and_eq_true, Bool.or_eq_true,
    decide_eq_true_eq]
  split_ifs <;> omega

theorem userSeries_ne_nil (n f3 : Int) (u : String) (group : List ScoredRow)
    (running rank : Int) (rest : List Int) :
    userSeries n f3 u group running (rank :: rest) ≠ [] := by
  simp only [userSeries]
  cases hf : group.find? (fun row => row.actual_rank == rank) <;> simp

theorem getLast?_map_score_cons (pt : ProgPoint) (l : List ProgPoint) (h : l ≠ []) :
    ((pt :: l).map (fun q => q.score)).getLast? = (l.map (fun q => q.score)).getLast? := by
  cases l with
  | nil => exact absurd rfl h
  | cons b t => rw [List.map_cons, List.map_cons, List.getLast?_cons_cons]

theorem userSeries_eliminations (n f3 : Int) (u : String) (group : List ScoredRow) :
    ∀ (ranks : List Int) (running : Int),
      (userSeries n f3 u group running ranks).map (fun q => q.elimination) = ranks
  | [], _ => rfl
  | rank :: rest, running => by
    simp only [userSeries]
    cases hf : group.find? (fun row => row.actual_rank == rank) with
    | some row =>
      simp only [List.map_cons]
      rw [userSeries_eliminations n f3 u group rest]
    | none =>
      simp only [List.map_cons]
      rw [userSeries_eliminations n f3 u group rest]

theorem userSeries_getLast (n f3 : Int) (u : String) (group : List ScoredRow) :
    ∀ (ranks : List Int) (running : Int), ranks ≠ [] →
      ((userSeries n f3 u group running ranks).map (fun q => q.score)).getLast?
        = some (running + (ranks.map (seriesDelta n f3 group)).sum)
  | [], _, h => absurd rfl h
  | rank :: rest, running, _ => by
    simp only [userSeries]
    cases hf : group.find? (fun row => row.actual_rank == rank) with
    | some row =>
      have hrow : row.actual_rank = rank := by
        have := List.find?_some hf
        rwa [beq_iff_eq] at this
      cases rest with
      | nil =>
        simp only [userSeries, List.map_cons, List.map_nil, List.getLast?_singleton,
          List.sum_cons, List.sum_nil, seriesDelta, hf]
        rw [progressStep_eq n f3 running rank row hrow, add_zero]
      | cons rank2 rest2 =>
        rw [getLast?_map_score_cons _ _ (userSeries_ne_nil n f3 u group _ rank2 rest2)]
        rw [userSeries_getLast n f3 u group (rank2 :: rest2) _ (by simp)]
        rw [progressStep_eq n f3 running rank row hrow]
        simp only [List.map_cons, List.sum_cons, seriesDelta, hf]
        rw [add_assoc]
    | none =>
      cases rest with
      | nil =>
        simp only [userSeries, List.map_cons, List.map_nil, List.getLast?_singleton,
          List.sum_cons, List.sum_nil, seriesDelta, hf]
        rw [add_zero, add_zero]
      | cons rank2 rest2 =>
        rw [getLast?_map_score_cons _ _ (userSeries_ne_nil n f3 u group _ rank2 rest2)]
        rw [userSeries_getLast n f3 u group (rank2 :: rest2) running (by simp)]
        simp only [List.map_cons, List.sum_cons, seriesDelta, hf]
        rw [zero_add]

theorem seriesDelta_eq_filter_sum (n f3 : Int) :
    ∀ {group : List ScoredRow},
      group.Pairwise (fun a b => a.actual_rank ≠ b.actual_rank) → ∀ rank : Int,
      seriesDelta n f3 group rank
        = ((group.filter (fun row => row.actual_rank == rank)).map
            (specContribution n f3)).sum
  | [], _, rank => by simp [seriesDelta]
  | r :: rest, hdist, rank => by
    rcases List.pairwise_cons.mp hdist with ⟨hhead, htail⟩
    cases hra : r.actual_rank == rank with
    | true =>
      rw [beq_iff_eq] at hra
      have hfil : rest.filter (fun row => row.actual_rank == rank) = [] := by
        rw [List.filter_eq_nil_iff]
        intro q hq
        simp only [beq_iff_eq]
        intro hqr
        exact hhead q hq (by rw [hra, hqr])
      rw [seriesDelta, List.find?_cons_of_pos rest (by rw [beq_iff_eq]; exact hra)]
      rw [List.filter_cons_of_pos (by rw [beq_iff_eq]; exact hra), hfil]
      simp
    | false =>
      rw [seriesDelta, List.find?_cons_of_neg rest (by rw [hra]; exact Bool.false_ne_true)]
      rw [List.filter_cons_of_neg (by rw [hra]; exact Bool.false_ne_true)]
      rw [← seriesDelta]
      exact seriesDelta_eq_filter_sum n f3 htail rank

theorem sum_map_filter_split (f : ScoredRow → Int) (p : ScoredRow → Bool) :
    ∀ g : List ScoredRow,
      ((g.filter p).map f).sum + ((g.filter (fun r => !p r)).map f).sum = (g.map f).sum
  | [] => by simp
  | r :: g => by
    cases hp : p r with
    | true =>
      rw [List.filter_cons_of_pos (by rw [hp]), List.filter_cons_of_neg (by simp [hp])]
      simp only [List.map_cons, List.sum_cons]
      rw [add_assoc, sum_map_filter_split f p g]
    | false =>
      rw [List.filter_cons_of_neg (by rw [hp]; exact Bool.false_ne_true),
        List.filter_cons_of_pos (by simp [hp])]
      simp only [List.map_cons, List.sum_cons]
      rw [add_left_comm, sum_map_filter_split f p g]

theorem sum_deltas_eq (n f3 : Int) :
    ∀ (ranks : List Int) (g : List ScoredRow), ranks.Nodup →
      (∀ r ∈ g, r.actual_rank ∈ ranks) →
      g.Pairwise (fun a b => a.actual_rank ≠ b.actual_rank) →
      (ranks.map (seriesDelta n f3 g)).sum = (g.map (specContribution n f3)).sum
  | [], g, _, hcov, _ => by
    have hg : g = [] := List.eq_nil_iff_forall_not_mem.mpr
      (fun r hr => absurd (hcov r hr) (List.not_mem_nil _))
    subst hg
    rfl
  | rank :: rest, g, hnd, hcov, hdist => by
    rcases List.nodup_cons.mp hnd with ⟨hnotin, hndrest⟩
    rw [List.map_cons, List.sum_cons, seriesDelta_eq_filter_sum n f3 hdist rank]
    have hcongr : rest.map (seriesDelta n f3 g)
        = rest.map (seriesDelta n f3 (g.filter (fun row => !(row.actual_rank == rank)))) := by
      refine List.map_congr_left ?_
      intro rank2 hrank2
      have hne : rank2 ≠ rank := fun h => hnotin (h ▸ hrank2)
      rw [seriesDelta_eq_filter_sum n f3 hdist rank2,
        seriesDelta_eq_filter_sum n f3 (hdist.filter _) rank2]
      rw [List.filter_filter]
      refine congrArg (fun t => (List.map (specContribution n f3) t).sum) ?_
      refine List.filter_congr ?_
      intro row _
      cases hr2 : row.actual_rank == rank2 with
      | true =>
        rw [beq_iff_eq] at hr2
        have : (row.actual_rank == rank) = false := by
          rw [beq_eq_false_iff_ne]
          rw [hr2]
          exact hne
        rw [this]
        rfl
      | false => simp
    rw [hcongr]
    rw [sum_deltas_eq n f3 rest (g.filter (fun row => !(row.actual_rank == rank))) hndrest
      ?_ (hdist.filter _)]
    · exact sum_map_filter_split (specContribution n f3) (fun row => row.actual_rank == rank) g
    · intro r hr
      rw [List.mem_filter] at hr
      have := hcov r hr.1
      rw [List.mem_cons] at this
      rcases this with h | h
      · rw [Bool.not_eq_eq_eq_not, Bool.not_true, beq_eq_false_iff_ne] at hr
        exact absurd h hr.2
      · exact h

theorem hasUserRankDup_eq_false :
    ∀ {l : List ScoredRow}, hasUserRankDup l = false →
      l.Pairwise (fun a b => ¬(a.username = b.username ∧ a.actual_rank = b.actual_rank))
  | [], _ => List.Pairwise.nil
  | r :: rest, h => by
    rw [hasUserRankDup, Bool.or_eq_false_iff] at h
    refine List.Pairwise.cons ?_ (hasUserRankDup_eq_false h.2)
    intro s hs ⟨hu, ha⟩
    have := List.any_eq_false.mp h.1 s hs
    rw [Bool.and_eq_true, beq_iff_eq, beq_iff_eq] at this
    exact this ⟨hu.symm, ha.symm⟩

theorem find?_filter_of_imp {α : Type _} (p q : α → Bool)
    (h : ∀ a, p a = true → q a = true) :
    ∀ l : List α, (l.filter q).find? p = l.find? p
  | [] => rfl
  | x :: l => by
    by_cases hq : q x
    · by_cases hp : p x
      · simp [List.filter_cons, hq, List.find?_cons, hp]
      · simp only [List.filter_cons, hq, if_true, List.find?_cons, hp, Bool.false_eq_true,
          cond_false, find?_filter_of_imp p q h l]
    · have hp : p x = false := by
        cases hpx : p x with
        | false => rfl
        | true => exact absurd (h x hpx) (by simpa using hq)
      simp only [List.filter_cons, hq, Bool.false_eq_true, if_false, List.find?_cons, hp,
        cond_false, find?_filter_of_imp p q h l]

/-- Claim C1: for every castaway set (with N = its size and
final_3_min = N - 2) and every prediction set on which the scoring
function returns normally, each user's reported total equals the sum
over that user's joined tuples of exactly
min(a, p) + (1 if p = a) + (3 if (is_final_three OR a >= final_3_min)
AND p >= final_3_min) + (5 if (is_winner OR a = N) AND p = N), the +5
stacking additively on the +3; and the user's exact-pick counter equals
the number of tuples with p = a. -/
theorem claim_C1 (castaways : List Castaway) (preds : List Prediction)
    (l : List ScoreRecord) (rec : ScoreRecord)
    (hok : calculate_scores castaways preds = Except.ok l) (hrec : rec ∈ l) :
    rec.score = (((scoredRows castaways preds).filter
        (fun row => row.username == rec.player)).map
        (specContribution (castaways.length : Int) ((castaways.length : Int) - 2))).sum
      ∧ rec.exact_picks = ((scoredRows castaways preds).filter
        (fun row => row.username == rec.player)).countP
        (fun row => row.predicted_rank == row.actual_rank) := by
  rcases calculate_scores_ok_cases hok with ⟨_, rfl⟩ | ⟨_, _, rfl⟩
  · exact absurd hrec (List.not_mem_nil rec)
  · obtain ⟨ut, hut, hplayer, hscore, hexact, _⟩ := mem_attachRanks hrec
    rw [List.mem_insertionSort] at hut
    rw [scoreResults, List.mem_map] at hut
    obtain ⟨u, _, rfl⟩ := hut
    simp only [] at hplayer hscore hexact
    rw [hscore, hexact, hplayer, scoreGroup_eq]
    exact ⟨rfl, rfl⟩

/-- Predictions used by the C1/C9 witnesses: two users with different
totals. -/
def c1preds : List Prediction :=
  [⟨"u", "A", 1⟩, ⟨"u", "B", 2⟩, ⟨"u", "C", 3⟩, ⟨"v", "A", 3⟩, ⟨"v", "B", 1⟩]

/-- Witness for claim C1 at a concrete input, using the top-ranked
output record. -/
theorem claim_C1_witness :
    calculate_scores scenarioACast c1preds =
      Except.ok [⟨1, "u", 23, 3, 3⟩, ⟨2, "v", 8, 0, 2⟩]
      ∧ ((⟨1, "u", 23, 3, 3⟩ : ScoreRecord) ∈
          [(⟨1, "u", 23, 3, 3⟩ : ScoreRecord), ⟨2, "v", 8, 0, 2⟩])
      ∧ ((⟨1, "u", 23, 3, 3⟩ : ScoreRecord).score =
          (((scoredRows scenarioACast c1preds).filter
            (fun row => row.username == (⟨1, "u", 23, 3, 3⟩ : ScoreRecord).player)).map
            (specContribution (scenarioACast.length : Int)
              ((scenarioACast.length : Int) - 2))).sum
        ∧ (⟨1, "u", 23, 3, 3⟩ : ScoreRecord).exact_picks =
          ((scoredRows scenarioACast c1preds).filter
            (fun row => row.username == (⟨1, "u", 23, 3, 3⟩ : ScoreRecord).player)).countP
            (fun row => row.predicted_rank == row.actual_rank)) :=
  ⟨rfl, by decide,
    claim_C1 scenarioACast c1preds [⟨1, "u", 23, 3, 3⟩, ⟨2, "v", 8, 0, 2⟩]
      ⟨1, "u", 23, 3, 3⟩ rfl (by decide)⟩

/-- Claim C9: whenever the scoring function returns normally with K
scored users, the rank column is exactly 1, 2, ..., K in output order,
the rows are in descending-total order, and K is the number of users
with at least one scored pick — so tied totals still get distinct
consecutive ranks and no two rows share a rank value. -/
theorem claim_C9 (castaways : List Castaway) (preds : List Prediction)
    (l : List ScoreRecord) (hok : calculate_scores castaways preds = Except.ok l) :
    l.map (fun rec => rec.rank) = List.range' 1 l.length
      ∧ l.Pairwise (fun a b => b.score ≤ a.score)
      ∧ l.length = (sortedUsernames (scoredRows castaways preds)).length := by
  rcases calculate_scores_ok_cases hok with ⟨rfl, rfl⟩ | ⟨_, _, rfl⟩
  · exact ⟨rfl, List.Pairwise.nil, rfl⟩
  · refine ⟨?_, attachRanks_pairwise (List.sorted_insertionSort scoreDesc _), ?_⟩
    · rw [attachRanks_length]
      exact attachRanks_map_rank 1 _
    · rw [attachRanks_length, List.length_insertionSort, scoreResults, List.length_map]

/-- Witness for claim C9 at a concrete input with two users (one of
whom has only some picks scored). -/
theorem claim_C9_witness :
    calculate_scores scenarioACast c1preds =
      Except.ok [⟨1, "u", 23, 3, 3⟩, ⟨2, "v", 8, 0, 2⟩]
      ∧ ([(⟨1, "u", 23, 3, 3⟩ : ScoreRecord), ⟨2, "v", 8, 0, 2⟩].map (fun rec => rec.rank) =
          List.range' 1 [(⟨1, "u", 23, 3, 3⟩ : ScoreRecord), ⟨2, "v", 8, 0, 2⟩].length
        ∧ [(⟨1, "u", 23, 3, 3⟩ : ScoreRecord), ⟨2, "v", 8, 0, 2⟩].Pairwise
            (fun a b => b.score ≤ a.score)
        ∧ [(⟨1, "u", 23, 3, 3⟩ : ScoreRecord), ⟨2, "v", 8, 0, 2⟩].length =
            (sortedUsernames (scoredRows scenarioACast c1preds)).length) :=
  ⟨rfl, claim_C9 scenarioACast c1preds [⟨1, "u", 23, 3, 3⟩, ⟨2, "v", 8, 0, 2⟩] rfl⟩

/-- The progression `compute_score_progression scenarioACast c1preds`
evaluates to. -/
def c4pts : List ProgPoint :=
  [⟨1, "u", 5⟩, ⟨2, "u", 11⟩, ⟨3, "u", 23⟩, ⟨1, "v", 4⟩, ⟨2, "v", 8⟩, ⟨3, "v", 8⟩]

/-- Claim C2: whenever both the progression replayer and the scoring
function return normally, every user appearing in the progression output
has a score record, the user's checkpoint column is exactly the
ascending list of elimination checkpoints (so the last entry is the
maximum checkpoint), and the cumulative score at that last checkpoint
equals the user's total score.  The claim's uniqueness hypothesis is not
even needed: a duplicated (user, actual_rank) pair makes the replay
raise `TypeError`, which the normal-return hypothesis already excludes. -/
theorem claim_C2 (castaways : List Castaway) (preds : List Prediction)
    (pts : List ProgPoint) (l : List ScoreRecord) (u : String)
    (hprog : compute_score_progression castaways preds = Except.ok pts)
    (hscores : calculate_scores castaways preds = Except.ok l)
    (happears : pts.filter (fun q => q.player == u) ≠ []) :
    ∃ rec ∈ l, rec.player = u
      ∧ (pts.filter (fun q => q.player == u)).map (fun q => q.elimination)
          = elimOrder (scoredRows castaways preds)
      ∧ ((pts.filter (fun q => q.player == u)).map (fun q => q.score)).getLast?
          = some rec.score := by
  rcases compute_score_progression_ok_cases hprog with rfl | ⟨hdup, rfl⟩
  · exact absurd rfl happears
  · have hplayers : ∀ u' ∈ sortedUsernames (scoredRows castaways preds),
        ∀ q ∈ userSeries (castaways.length : Int) ((castaways.length : Int) - 2) u'
          ((scoredRows castaways preds).filter (fun row => row.username == u')) 0
          (elimOrder (scoredRows castaways preds)), q.player = u' :=
      fun u' _ q hq => userSeries_player _ _ u' _ _ _ q hq
    have hnodup : (sortedUsernames (scoredRows castaways preds)).Nodup :=
      (List.perm_insertionSort strRel _).symm.nodup (List.nodup_dedup _)
    rw [filter_flatMap_player u _ _ hplayers hnodup] at happears ⊢
    by_cases hu : u ∈ sortedUsernames (scoredRows castaways preds)
    · rw [if_pos hu] at happears ⊢
      rcases calculate_scores_ok_cases hscores with ⟨hpe, rfl⟩ | ⟨hpne, hcne, rfl⟩
      · subst hpe
        exact absurd hu (List.not_mem_nil u)
      · have hut : (UserTotals.mk u
            (scoreGroup (castaways.length : Int) ((castaways.length : Int) - 2)
              ((scoredRows castaways preds).filter (fun row => row.username == u))).1
            (scoreGroup (castaways.length : Int) ((castaways.length : Int) - 2)
              ((scoredRows castaways preds).filter (fun row => row.username == u))).2
            ((scoredRows castaways preds).filter (fun row => row.username == u)).length)
            ∈ scoreResults (castaways.length : Int) ((castaways.length : Int) - 2)
              (scoredRows castaways preds) := by
          rw [scoreResults]
          exact List.mem_map.mpr ⟨u, hu, rfl⟩
        have hut2 := (List.mem_insertionSort scoreDesc).mpr hut
        obtain ⟨rec, hrecmem, hrp, hrs, _, _⟩ := attachRanks_exists 1 hut2
        refine ⟨rec, hrecmem, hrp, userSeries_eliminations _ _ u _ _ 0, ?_⟩
        have hranksne : elimOrder (scoredRows castaways preds) ≠ [] := by
          obtain ⟨r, hr, -⟩ : ∃ r ∈ scoredRows castaways preds, r.username = u := by
            rw [sortedUsernames, List.mem_insertionSort, List.mem_dedup,
              List.mem_map] at hu
            obtain ⟨r, hr, rfl⟩ := hu
            exact ⟨r, hr, rfl⟩
          refine List.ne_nil_of_mem (a := r.actual_rank) ?_
          rw [elimOrder, List.mem_insertionSort, List.mem_dedup, List.mem_map]
          exact ⟨r, hr, rfl⟩
        rw [userSeries_getLast _ _ u _ _ 0 hranksne, zero_add]
        have hdist : ((scoredRows castaways preds).filter
            (fun row => row.username == u)).Pairwise
            (fun a b => a.actual_rank ≠ b.actual_rank) := by
          refine ((hasUserRankDup_eq_false hdup).filter _).imp_of_mem ?_
          intro a b ha hb hnab haeq
          rw [List.mem_filter, beq_iff_eq] at ha hb
          exact hnab ⟨ha.2.trans hb.2.symm, haeq⟩
        have hcov : ∀ r ∈ (scoredRows castaways preds).filter
            (fun row => row.username == u),
            r.actual_rank ∈ elimOrder (scoredRows castaways preds) := by
          intro r hr
          rw [List.mem_filter] at hr
          rw [elimOrder, List.mem_insertionSort, List.mem_dedup, List.mem_map]
          exact ⟨r, hr.1, rfl⟩
        have hndranks : (elimOrder (scoredRows castaways preds)).Nodup :=
          (List.perm_insertionSort _ _).symm.nodup (List.nodup_dedup _)
        rw [sum_deltas_eq _ _ _ _ hndranks hcov hdist, hrs, scoreGroup_eq]
    · rw [if_neg hu] at happears
      exact absurd rfl happears

/-- The score list `calculate_scores scenarioACast c1preds` evaluates
to. -/
def c2scores : List ScoreRecord := [⟨1, "u", 23, 3, 3⟩, ⟨2, "v", 8, 0, 2⟩]

/-- Witness for claim C2 at a concrete input: user v's final cumulative
value 8 at the last checkpoint equals v's total score. -/
theorem claim_C2_witness :
    compute_score_progression scenarioACast c1preds = Except.ok c4pts
      ∧ calculate_scores scenarioACast c1preds = Except.ok c2scores
      ∧ c4pts.filter (fun q => q.player == "v") ≠ []
      ∧ ∃ rec ∈ c2scores, rec.player = "v"
          ∧ (c4pts.filter (fun q => q.player == "v")).map (fun q => q.elimination)
              = elimOrder (scoredRows scenarioACast c1preds)
          ∧ ((c4pts.filter (fun q => q.player == "v")).map (fun q => q.score)).getLast?
              = some rec.score :=
  ⟨rfl, rfl, by decide,
    claim_C2 scenarioACast c1preds c4pts c2scores "v" rfl rfl (by decide)⟩

/-- Claim C4: for every input with data-model-valid ranks (predicted
ranks and assigned actual ranks are nonnegative) on which the
progression replayer returns normally, each user's cumulative-score
sequence in ascending checkpoint order is monotonically non-decreasing
(every per-checkpoint increment is >= 0). -/
theorem claim_C4 (castaways : List Castaway) (preds : List Prediction)
    (pts : List ProgPoint) (u : String)
    (hok : compute_score_progression castaways preds = Except.ok pts)
    (hpred : ∀ p ∈ preds, 0 ≤ p.predicted_rank)
    (hcast : ∀ c ∈ castaways, 0 ≤ c.actual_rank.getD 0) :
    ((pts.filter (fun q => q.player == u)).map (fun q => q.score)).Chain'
      (fun a b => a ≤ b) := by
  rcases compute_score_progression_ok_cases hok with rfl | ⟨_, rfl⟩
  · simp
  · have hplayers : ∀ u' ∈ sortedUsernames (scoredRows castaways preds),
        ∀ q ∈ userSeries (castaways.length : Int) ((castaways.length : Int) - 2) u'
          ((scoredRows castaways preds).filter (fun row => row.username == u')) 0
          (elimOrder (scoredRows castaways preds)), q.player = u' :=
      fun u' _ q hq => userSeries_player _ _ u' _ _ _ q hq
    have hnodup : (sortedUsernames (scoredRows castaways preds)).Nodup :=
      (List.perm_insertionSort strRel _).symm.nodup (List.nodup_dedup _)
    rw [filter_flatMap_player u _ _ hplayers hnodup]
    by_cases hu : u ∈ sortedUsernames (scoredRows castaways preds)
    · rw [if_pos hu]
      have hg : ∀ r ∈ (scoredRows castaways preds).filter
          (fun row => row.username == u), 0 ≤ r.predicted_rank := by
        intro r hr
        rw [List.mem_filter] at hr
        obtain ⟨⟨p, hp, _, hpr⟩, _⟩ := mem_scoredRows hr.1
        rw [hpr]
        exact hpred p hp
      have hranks : ∀ a ∈ elimOrder (scoredRows castaways preds), 0 ≤ a := by
        intro a ha
        obtain ⟨r, hrmem, hra⟩ := mem_elimOrder ha
        obtain ⟨_, c, hc, hca⟩ := mem_scoredRows hrmem
        have := hcast c hc
        rw [hca] at this
        rw [← hra]
        exact this
      exact (userSeries_chain _ _ u _ hg (elimOrder (scoredRows castaways preds))
        0 hranks).tail
    · rw [if_neg hu]
      simp

/-- Witness for claim C4 at a concrete input: user v has a flat final
segment, user u strictly climbs; both sequences are non-decreasing. -/
theorem claim_C4_witness :
    compute_score_progression scenarioACast c1preds = Except.ok c4pts
      ∧ (∀ p ∈ c1preds, 0 ≤ p.predicted_rank)
      ∧ (∀ c ∈ scenarioACast, 0 ≤ c.actual_rank.getD 0)
      ∧ ((c4pts.filter (fun q => q.player == "v")).map (fun q => q.score)).Chain'
          (fun a b => a ≤ b) :=
  ⟨rfl, by decide, by decide,
    claim_C4 scenarioACast c1preds c4pts "v" rfl (by decide) (by decide)⟩

/-- True when prediction `p` references a castaway whose `actual_rank`
is null (the predictions claim C5 removes). -/
def dropsUnscored (castaways : List Castaway) (p : Prediction) : Bool :=
  castaways.any (fun c => c.player_name == p.player_name && c.actual_rank.isNone)

theorem predRows_eq_nil_of_dropsUnscored {castaways : List Castaway} {p : Prediction}
    (hnames : (castaways.map (fun c => c.player_name)).Nodup)
    (hdrop : dropsUnscored castaways p = true) : predRows castaways p = [] := by
  rw [predRows, List.filterMap_eq_nil_iff]
  intro c' hc'
  rw [List.mem_filter, beq_iff_eq] at hc'
  obtain ⟨hc'mem, hc'name⟩ := hc'
  rw [dropsUnscored, List.any_eq_true] at hdrop
  obtain ⟨c, hcmem, hc⟩ := hdrop
  rw [Bool.and_eq_true, beq_iff_eq, Option.isNone_iff_eq_none] at hc
  obtain ⟨hcname, hcnone⟩ := hc
  have heq : c' = c :=
    List.inj_on_of_nodup_map hnames hc'mem hcmem (by rw [hc'name, hcname])
  rw [heq, hcnone]
  rfl

theorem scoredRows_drop_unscored {castaways : List Castaway}
    (hnames : (castaways.map (fun c => c.player_name)).Nodup) :
    ∀ preds : List Prediction,
      scoredRows castaways (preds.filter (fun p => !dropsUnscored castaways p))
        = scoredRows castaways preds
  | [] => rfl
  | p :: rest => by
    rw [List.filter_cons]
    have ih := scoredRows_drop_unscored hnames rest
    cases hk : dropsUnscored castaways p with
    | false =>
      simp only [hk, Bool.not_false, if_true]
      rw [scoredRows, scoredRows] at ih
      simp only [scoredRows, List.flatMap_cons, ih]
    | true =>
      simp only [hk, Bool.not_true, Bool.false_eq_true, if_false]
      rw [ih, scoredRows, scoredRows, List.flatMap_cons,
        predRows_eq_nil_of_dropsUnscored hnames hk, List.nil_append]

/-- Claim C5: when castaway names are unique (as the data model
requires), removing every prediction that references a castaway with
null `actual_rank` yields exactly the same scoring output as the
original prediction set. -/
theorem claim_C5 (castaways : List Castaway) (preds : List Prediction)
    (hnames : (castaways.map (fun c => c.player_name)).Nodup) :
    calculate_scores castaways
        (preds.filter (fun p => !dropsUnscored castaways p))
      = calculate_scores castaways preds := by
  by_cases hce : castaways = []
  · subst hce
    have hall : preds.filter (fun p => !dropsUnscored [] p) = preds :=
      List.filter_eq_self.mpr (fun p _ => by rw [dropsUnscored]; rfl)
    rw [hall]
  · by_cases hpe : preds = []
    · subst hpe; rfl
    · have hrows := scoredRows_drop_unscored hnames preds
      by_cases hfe : preds.filter (fun p => !dropsUnscored castaways p) = []
      · rw [calculate_scores, calculate_scores, hfe]
        have h2 : preds.isEmpty = false := List.isEmpty_eq_false.mpr hpe
        have h3 : castaways.isEmpty = false := List.isEmpty_eq_false.mpr hce
        simp only [List.isEmpty_nil, if_true, h2, h3, Bool.false_eq_true, if_false]
        rw [← hrows, hfe]
        rfl
      · rw [calculate_scores, calculate_scores]
        have h1 : (preds.filter (fun p => !dropsUnscored castaways p)).isEmpty = false :=
          List.isEmpty_eq_false.mpr hfe
        have h2 : preds.isEmpty = false := List.isEmpty_eq_false.mpr hpe
        have h3 : castaways.isEmpty = false := List.isEmpty_eq_false.mpr hce
        simp only [h1, h2, h3, Bool.false_eq_true, if_false]
        rw [hrows]

/-- Witness for claim C5 at a concrete input: predictions on the
not-yet-eliminated castaway B are removed without changing the output. -/
theorem claim_C5_witness :
    (c7cast.map (fun c => c.player_name)).Nodup
      ∧ calculate_scores c7cast
          (c7preds.filter (fun p => !dropsUnscored c7cast p))
        = calculate_scores c7cast c7preds :=
  ⟨by decide, claim_C5 c7cast c7preds (by decide)⟩

/-- Claim C8: in the (started-season) game-state snapshot, the winner is
the first castaway flagged `is_winner`; if no castaway anywhere has the
flag set, it falls back to the eliminated castaway whose `actual_rank`
equals the total castaway count N (null if neither condition is met);
and `final_three` is exactly the castaways flagged `is_final_three`,
with no rank-based fallback. -/
theorem claim_C8 (castaways : List Castaway) (preds : List Prediction) (st : GameState)
    (hok : get_game_state castaways preds = Except.ok st)
    (helim : ∃ c ∈ castaways, c.actual_rank.isSome = true) :
    ((∃ c ∈ castaways, c.is_winner = true) →
        st.winner = (castaways.find? (fun c => c.is_winner)).map (fun c => c.player_name))
      ∧ ((¬ ∃ c ∈ castaways, c.is_winner = true) →
        st.winner = (castaways.find? (fun c =>
          c.actual_rank == some (castaways.length : Int))).map (fun c => c.player_name))
      ∧ (∀ name, name ∈ st.final_three ↔
        ∃ c ∈ castaways, c.player_name = name ∧ c.is_final_three = true) := by
  have hne : castaways.isEmpty = false := by
    obtain ⟨c, hc, _⟩ := helim
    cases castaways with
    | nil => exact absurd hc (List.not_mem_nil c)
    | cons a l => rfl
  have helimne : (castaways.filter (fun c => c.actual_rank.isSome)).isEmpty = false := by
    obtain ⟨c, hc, hs⟩ := helim
    have : c ∈ castaways.filter (fun c => c.actual_rank.isSome) :=
      List.mem_filter.mpr ⟨hc, hs⟩
    cases hfil : castaways.filter (fun c => c.actual_rank.isSome) with
    | nil => rw [hfil] at this; exact absurd this (List.not_mem_nil c)
    | cons a l => rfl
  rw [get_game_state, hne] at hok
  simp only [Bool.false_eq_true, if_false, helimne] at hok
  cases hL : ((castaways.filter (fun c => c.actual_rank.isSome)).insertionSort
      rankAsc).getLast? with
  | none => rw [hL] at hok; exact absurd hok (by simp)
  | some mr =>
    rw [hL] at hok
    cases hC : calculate_scores castaways preds with
    | error e => rw [hC] at hok; exact absurd hok (by simp)
    | ok scores =>
      rw [hC] at hok
      simp only [Except.ok.injEq] at hok
      subst hok
      refine ⟨?_, ?_, ?_⟩
      · intro hflag
        have hwne : ((castaways.filter (fun c => c.is_winner)).map
            (fun c => c.player_name)).isEmpty = false := by
          obtain ⟨c, hc, hw⟩ := hflag
          have : c ∈ castaways.filter (fun c => c.is_winner) :=
            List.mem_filter.mpr ⟨hc, hw⟩
          cases hfil : (castaways.filter (fun c => c.is_winner)).map
              (fun c => c.player_name) with
          | nil =>
            rw [List.map_eq_nil_iff] at hfil
            rw [hfil] at this
            exact absurd this (List.not_mem_nil c)
          | cons a l => rfl
        simp only [hwne, Bool.false_and, Bool.false_eq_true, if_false]
        exact (head?_filter_map _ _ castaways).symm ▸ rfl
      · intro hflag
        have hwnil : castaways.filter (fun c => c.is_winner) = [] := by
          rw [List.eq_nil_iff_forall_not_mem]
          intro c hc
          rw [List.mem_filter] at hc
          exact hflag ⟨c, hc.1, hc.2⟩
        simp only [hwnil, List.map_nil, List.isEmpty_nil, helimne, Bool.not_false,
          Bool.and_self, if_true]
        rw [head?_filter_map, find?_filter_of_imp]
        intro c hc
        have : c.actual_rank = some (castaways.length : Int) := by
          simpa using hc
        simp [this]
      · intro name
        simp only [List.mem_map, List.mem_filter]
        constructor
        · rintro ⟨c, ⟨hc, hflag⟩, rfl⟩
          exact ⟨c, hc, rfl, hflag⟩
        · rintro ⟨c, hc, rfl, hflag⟩
          exact ⟨c, ⟨hc, hflag⟩, rfl⟩

/-- Castaways used by the C8 witness: a final-three flag on A, no
winner flag anywhere, B eliminated with rank N = 2. -/
def c8cast : List Castaway :=
  [⟨"A", "t", some 1, true, false⟩, ⟨"B", "t", some 2, false, false⟩]

/-- The snapshot `get_game_state c8cast []` evaluates to. -/
def c8state : GameState :=
  ⟨2, 0, some ⟨"B", "t", some 2, false, false⟩, [], [], [], ["A"], some "B", []⟩

/-- Witness for claim C8 at a concrete input: both hypotheses hold and
the conclusion follows by applying the theorem. -/
theorem claim_C8_witness :
    (∃ c ∈ c8cast, c.actual_rank.isSome = true)
      ∧ (((∃ c ∈ c8cast, c.is_winner = true) →
            c8state.winner =
              (c8cast.find? (fun c => c.is_winner)).map (fun c => c.player_name))
        ∧ ((¬ ∃ c ∈ c8cast, c.is_winner = true) →
            c8state.winner = (c8cast.find? (fun c =>
              c.actual_rank == some (c8cast.length : Int))).map (fun c => c.player_name))
        ∧ (∀ name, name ∈ c8state.final_three ↔
            ∃ c ∈ c8cast, c.player_name = name ∧ c.is_final_three = true)) :=
  ⟨by decide, claim_C8 c8cast [] c8state rfl (by decide)⟩

/-- Claim C7: with a non-empty prediction set, the standings rows are
ordered ascending by the mean of the present predicted ranks (nulls
ignored), and the mean column is not among the output columns. -/
theorem claim_C7 (castaways : List Castaway) (preds : List Prediction) (st : Standings)
    (hok : load_all_predictions castaways preds = Except.ok st) (hne : preds ≠ []) :
    st.rows.Pairwise (fun r s => ∀ a b : ℚ, rowAvg r = some a → rowAvg s = some b → a ≤ b)
      ∧ "avg_rank" ∉ standingsColumns st := by
  rw [load_all_predictions] at hok
  cases hce : castaways.isEmpty with
  | true => rw [hce] at hok; exact absurd hok (by simp)
  | false =>
    rw [hce] at hok
    cases hpe : preds.isEmpty with
    | true => exact absurd (List.isEmpty_iff.mp hpe) hne
    | false =>
      rw [hpe] at hok
      cases hdup : hasDupPredPair preds with
      | true => rw [hdup] at hok; exact absurd hok (by simp)
      | false =>
        rw [hdup] at hok
        cases hta : preds.any (fun p => p.username == "tribe" || p.username == "actual_rank") with
        | true => rw [hta] at hok; exact absurd hok (by simp)
        | false =>
          rw [hta] at hok
          cases hav : preds.any (fun p => p.username == "avg_rank") with
          | true => rw [hav] at hok; exact absurd hok (by simp)
          | false =>
            rw [hav] at hok
            simp only [Bool.false_eq_true, if_false, Except.ok.injEq] at hok
            subst hok
            constructor
            · refine List.Pairwise.imp_of_mem ?_
                (List.sorted_insertionSort avgRel _)
              intro r s _ _ hrel a b ha hb
              rw [rowAvg, Option.map_eq_some'] at ha hb
              obtain ⟨pr, hpr, hra⟩ := ha
              obtain ⟨ps, hps, hsb⟩ := hb
              rw [avgRel, hpr, hps] at hrel
              simp only [partsLe, decide_eq_true_eq] at hrel
              have hcr : (0 : ℚ) < (pr.2 : ℚ) := by
                exact_mod_cast rowMeanParts_count_pos hpr
              have hcs : (0 : ℚ) < (ps.2 : ℚ) := by
                exact_mod_cast rowMeanParts_count_pos hps
              rw [← hra, ← hsb, div_le_div_iff₀ hcr hcs]
              exact_mod_cast hrel
            · intro hmem
              simp only [standingsColumns, List.mem_cons] at hmem
              rcases hmem with h | h | h
              · exact absurd h (by decide)
              · exact absurd h (by decide)
              · rw [List.mem_insertionSort, List.mem_dedup, List.mem_map] at h
                obtain ⟨p, hp, hpn⟩ := h
                have := (List.any_eq_false.mp hav) p hp
                simp only [beq_iff_eq] at this
                exact this hpn

/-- The standings `load_all_predictions c7cast c7preds` evaluates to. -/
def c7standings : Standings :=
  ⟨["u", "v"],
   [⟨"B", "t", none, [some 1, some 2]⟩,
    ⟨"A", "t", some 1, [some 3, none]⟩,
    ⟨"C", "t", none, [none, none]⟩]⟩

/-- Witness for claim C7 at a concrete input. -/
theorem claim_C7_witness :
    c7preds ≠ []
      ∧ (c7standings.rows.Pairwise
          (fun r s => ∀ a b : ℚ, rowAvg r = some a → rowAvg s = some b → a ≤ b)
        ∧ "avg_rank" ∉ standingsColumns c7standings) :=
  ⟨by decide, claim_C7 c7cast c7preds c7standings rfl (by decide)⟩

/-- Claim C10: in the standings output, every castaway with no present
prediction (undefined mean) is placed after all castaways that have at
least one predicted rank. -/
theorem claim_C10 (castaways : List Castaway) (preds : List Prediction) (st : Standings)
    (hok : load_all_predictions castaways preds = Except.ok st) :
    st.rows.Pairwise (fun r s => rowAvg r = none → rowAvg s = none) := by
  rw [load_all_predictions] at hok
  cases hce : castaways.isEmpty with
  | true => rw [hce] at hok; exact absurd hok (by simp)
  | false =>
    rw [hce] at hok
    cases hpe : preds.isEmpty with
    | true =>
      rw [hpe] at hok
      simp only [Bool.false_eq_true, if_false, eq_self_iff_true, if_true,
        Except.ok.injEq] at hok
      subst hok
      refine List.pairwise_of_forall_mem_list ?_
      intro r _ s hs _
      simp only [List.mem_map] at hs
      obtain ⟨c, _, rfl⟩ := hs
      rfl
    | false =>
      rw [hpe] at hok
      cases hdup : hasDupPredPair preds with
      | true => rw [hdup] at hok; exact absurd hok (by simp)
      | false =>
        rw [hdup] at hok
        cases hta : preds.any (fun p => p.username == "tribe" || p.username == "actual_rank") with
        | true => rw [hta] at hok; exact absurd hok (by simp)
        | false =>
          rw [hta] at hok
          cases hav : preds.any (fun p => p.username == "avg_rank") with
          | true => rw [hav] at hok; exact absurd hok (by simp)
          | false =>
            rw [hav] at hok
            simp only [Bool.false_eq_true, if_false, Except.ok.injEq] at hok
            subst hok
            refine List.Pairwise.imp_of_mem ?_
              (List.sorted_insertionSort avgRel _)
            intro r s _ _ hrel hnone
            rw [rowAvg, Option.map_eq_none'] at hnone
            rw [avgRel, hnone] at hrel
            rw [rowAvg, Option.map_eq_none']
            cases hs : rowMeanParts s with
            | none => rfl
            | some q => rw [hs] at hrel; simp [partsLe] at hrel

/-- Witness for claim C10 at a concrete input: the no-prediction
castaway C sorts after A and B. -/
theorem claim_C10_witness :
    load_all_predictions c7cast c7preds = Except.ok c7standings
      ∧ c7standings.rows.Pairwise (fun r s => rowAvg r = none → rowAvg s = none) :=
  ⟨rfl, claim_C10 c7cast c7preds c7standings rfl⟩
